import Mathlib

/-!
Verification development for RustFileFinder (src/src/main.rs).

The program scans a directory tree for files matching a name substring
and/or a content regular expression. This file gives a shallow embedding
of the classification and matching engine:

* file text is modelled at the byte level (`List Nat`), matching the
  byte-offset semantics of Rust string slices and `Regex::find` spans;
* the filesystem is abstracted into an `FsFile` record carrying the data
  `analyze_file` observes (file name, path, extension, content bytes) and
  the outcome of each fallible I/O step (metadata, open, read, PDF lock,
  PDF extraction), so each Rust error branch is represented explicitly;
* the compiled regex is abstracted as its `find` function on bytes;
* the seven atomic counters become a `Counters` record threaded through
  the analysis as explicit state — the Rust increments commute, and
  `rayon`'s `par_iter().filter_map().collect()` preserves input order,
  so the sequential fold computes the same final snapshot;
* wall-clock time and output rendering are not modelled.
-/

namespace RustFileFinder

/-- Models `char::to_lowercase` composed over a string for the ASCII range
(the range exercised by name queries and the extension tables). -/
def toLowerStr (s : List Char) : List Char := s.map Char.toLower

/-- Models `str::starts_with`: `startsWithL hay pre` is true when `pre` is
an initial segment of `hay`. -/
def startsWithL {α : Type} [BEq α] : List α → List α → Bool
  | _, [] => true
  | [], _ :: _ => false
  | a :: as, b :: bs => a == b && startsWithL as bs

/-- Models `str::contains` (substring containment): true when `needle`
occurs contiguously inside `hay`. -/
def containsSub {α : Type} [BEq α] (hay needle : List α) : Bool :=
  match hay with
  | [] => startsWithL [] needle
  | a :: t => startsWithL (a :: t) needle || containsSub t needle

/-- Models lines 334-336 of main.rs: `matched_name` is the case-insensitive
substring test of the query against the file name, `false` with no query. -/
def computeMatchedName (fileName : List Char) : Option (List Char) → Bool
  | some q => containsSub (toLowerStr fileName) (toLowerStr q)
  | none => false

/-- A UTF-8 continuation byte: `0x80 ≤ b < 0xC0`. -/
def isCont (b : Nat) : Bool := 128 ≤ b && b < 192

/-- Models `std::str::from_utf8(&buf).is_ok()`: full UTF-8 validation of a
byte sequence (lead-byte ranges, continuation bytes, overlong and
surrogate rejection), as in `core::str::validations`. -/
def validUtf8 : List Nat → Bool
  | [] => true
  | b :: rest =>
    if b < 128 then validUtf8 rest
    else if b < 194 then false
    else if b < 224 then
      match rest with
      | b1 :: r => isCont b1 && validUtf8 r
      | [] => false
    else if b < 240 then
      match rest with
      | b1 :: b2 :: r =>
        isCont b1 && isCont b2 &&
          (if b == 224 then decide (160 ≤ b1) else true) &&
          (if b == 237 then decide (b1 < 160) else true) && validUtf8 r
      | _ => false
    else if b < 245 then
      match rest with
      | b1 :: b2 :: b3 :: r =>
        isCont b1 && isCont b2 && isCont b3 &&
          (if b == 240 then decide (144 ≤ b1) else true) &&
          (if b == 244 then decide (b1 < 144) else true) && validUtf8 r
      | _ => false
    else false

/-- Models `str::is_char_boundary` on a byte string: position 0, the end
position, or any position holding a non-continuation byte. -/
def isCharBoundary (s : List Nat) (i : Nat) : Bool :=
  if i = 0 then true
  else
    match s.get? i with
    | none => i == s.length
    | some b => !isCont b

/-- The descending loop of `clamp_to_char_boundary` (lines 598-600):
decrement while positive and not at a character boundary. -/
def clampDown (s : List Nat) : Nat → Nat
  | 0 => 0
  | j + 1 => if isCharBoundary s (j + 1) then j + 1 else clampDown s j

/-- Models `clamp_to_char_boundary` (lines 594-602): clamp the index to the
string length, then walk down to the nearest character boundary. -/
def clamp_to_char_boundary (s : List Nat) (i : Nat) : Nat :=
  clampDown s (min i s.length)

/-- Character count of a byte string, as `str::chars().count()`: the number
of non-continuation bytes. -/
def charCount (s : List Nat) : Nat := (s.filter (fun b => !isCont b)).length

/-- Splits off the leading run of continuation bytes. -/
def spanCont : List Nat → List Nat × List Nat
  | [] => ([], [])
  | b :: rest =>
    if isCont b then
      let p := spanCont rest
      (b :: p.1, p.2)
    else ([], b :: rest)

/-- Models `str::chars().take(n).collect()`: the prefix holding at most `n`
character starts (each kept together with its continuation bytes). -/
def takeChars : Nat → List Nat → List Nat
  | 0, _ => []
  | _, [] => []
  | n + 1, b :: rest =>
    let p := spanCont rest
    b :: p.1 ++ takeChars n p.2

/-- The context window of `snippet_around_match` before length truncation
(lines 611-617): `[m_start - context, m_end + context]` clamped to the text
bounds and to character boundaries, newlines replaced by spaces. -/
def snippetWindow (s : List Nat) (mStart mEnd context : Nat) : List Nat :=
  let start := mStart - context
  let stop := min (mEnd + context) s.length
  let start := clamp_to_char_boundary s start
  let stop := clamp_to_char_boundary s stop
  ((s.drop start).take (stop - start)).map (fun b => if b == 10 then 32 else b)

/-- Models `snippet_around_match` (lines 604-622): the clamped window,
truncated to `maxChars` characters when it is longer. -/
def snippet_around_match (s : List Nat) (mStart mEnd context maxChars : Nat) :
    List Nat :=
  let out := snippetWindow s mStart mEnd context
  if charCount out > maxChars then takeChars maxChars out else out

/-- The compiled content pattern, abstracted as its `find` function: the
first match span (byte start, byte end) in a byte string, if any. -/
structure CRegex where
  find : List Nat → Option (Nat × Nat)

/-- One candidate file as observed by `analyze_file`: its name, full path
and extension, its content bytes (so `meta.len()` is `content.length`), and
the outcome of each fallible step — metadata read, open, bounded read, the
global PDF lock acquisition, and PDF text extraction (`none` covers both an
`Err` result and a caught panic in `extract_text`). -/
structure FsFile where
  fileName : List Char
  path : List Char
  fileExt : Option (List Char)
  content : List Nat
  metaOk : Bool
  openOk : Bool
  readOk : Bool
  lockOk : Bool
  pdfExtract : Option (List Nat)

/-- Models `is_pdf` (lines 587-592): the extension compares equal to "pdf"
ignoring ASCII case. -/
def is_pdf (f : FsFile) : Bool :=
  match f.fileExt with
  | some e => e.map Char.toLower == String.toList "pdf"
  | none => false

/-- The recognized-text-extension table of `is_probably_text`
(lines 563-584). -/
def textExts : List (List Char) :=
  [String.toList "txt", String.toList "md", String.toList "rs",
   String.toList "js", String.toList "css", String.toList "html",
   String.toList "htm", String.toList "json", String.toList "toml",
   String.toList "yaml", String.toList "yml", String.toList "py",
   String.toList "java", String.toList "c", String.toList "cpp",
   String.toList "h", String.toList "hpp", String.toList "ts",
   String.toList "tsx"]

/-- Models `is_probably_text` (lines 559-585): the lowercased extension is
a member of the recognized table; extensionless files are not text. -/
def is_probably_text (f : FsFile) : Bool :=
  match f.fileExt with
  | some e => textExts.contains (e.map Char.toLower)
  | none => false

/-- Models the `MatchResult` record (lines 101-107), with the snippet kept
as bytes of the decoded text. -/
structure MatchResult where
  path : List Char
  matched_name : Bool
  matched_content : Bool
  snippet : Option (List Nat)
deriving DecidableEq

/-- Models the seven per-class counters (lines 109-117). -/
structure Counters where
  scanned_text : Nat
  scanned_pdf : Nat
  skipped_non_text : Nat
  skipped_too_large : Nat
  skipped_non_utf8 : Nat
  skipped_unreadable_text : Nat
  skipped_unreadable_pdf : Nat
deriving DecidableEq

/-- The all-zero counter state of lines 212-220. -/
def zeroCounters : Counters := ⟨0, 0, 0, 0, 0, 0, 0⟩

/-- The sum of the seven per-class counters. -/
def counterSum (c : Counters) : Nat :=
  c.scanned_text + c.scanned_pdf + c.skipped_non_text + c.skipped_too_large +
    c.skipped_non_utf8 + c.skipped_unreadable_text + c.skipped_unreadable_pdf

/-- Models `some_if_name_only` (lines 464-481). -/
def some_if_name_only (f : FsFile) (nameQuery : Option (List Char))
    (matchedName : Bool) : Option MatchResult :=
  if nameQuery.isSome && matchedName then
    some ⟨f.path, matchedName, false, none⟩
  else none

/-- The final result construction of `analyze_file` (lines 450-461): a
record exactly when a requested kind of match succeeded. -/
def finalResult (f : FsFile) (nameQuery : Option (List Char))
    (hasContentQuery matchedName matchedContent : Bool)
    (snippet : Option (List Nat)) : Option MatchResult :=
  if (nameQuery.isSome && matchedName) || (hasContentQuery && matchedContent) then
    some ⟨f.path, matchedName, matchedContent, snippet⟩
  else none

/-- The PDF branch of `analyze_file` (lines 361-400): increment
`scanned_pdf`, then attempt the lock and the extraction; on either failure
increment `skipped_unreadable_pdf` and fall back to name-only evaluation;
on success search the extracted text. -/
def pdfScan (nameQuery : Option (List Char)) (re : CRegex) (f : FsFile)
    (matchedName : Bool) (c : Counters) : Option MatchResult × Counters :=
  let c := { c with scanned_pdf := c.scanned_pdf + 1 }
  if !f.lockOk then
    (some_if_name_only f nameQuery matchedName,
      { c with skipped_unreadable_pdf := c.skipped_unreadable_pdf + 1 })
  else
    match f.pdfExtract with
    | none =>
      (some_if_name_only f nameQuery matchedName,
        { c with skipped_unreadable_pdf := c.skipped_unreadable_pdf + 1 })
    | some text =>
      match re.find text with
      | some (ms, me) =>
        (finalResult f nameQuery true matchedName true
          (some (snippet_around_match text ms me 40 120)), c)
      | none => (finalResult f nameQuery true matchedName false none, c)

/-- The text branch of `analyze_file` (lines 401-447): metadata, byte-cap
and open checks, then `scanned_text` is incremented, then the bounded read
and UTF-8 decode decide between a regex search, a `non_utf8` skip, and an
`unreadable_text` skip. -/
def textScan (nameQuery : Option (List Char)) (re : CRegex) (maxBytes : Nat)
    (f : FsFile) (matchedName : Bool) (c : Counters) :
    Option MatchResult × Counters :=
  if !f.metaOk then
    (some_if_name_only f nameQuery matchedName,
      { c with skipped_unreadable_text := c.skipped_unreadable_text + 1 })
  else if f.content.length > maxBytes then
    (some_if_name_only f nameQuery matchedName,
      { c with skipped_too_large := c.skipped_too_large + 1 })
  else if !f.openOk then
    (some_if_name_only f nameQuery matchedName,
      { c with skipped_unreadable_text := c.skipped_unreadable_text + 1 })
  else
    let c := { c with scanned_text := c.scanned_text + 1 }
    if f.readOk then
      let buf := f.content.take maxBytes
      if validUtf8 buf then
        match re.find buf with
        | some (ms, me) =>
          (finalResult f nameQuery true matchedName true
            (some (snippet_around_match buf ms me 40 120)), c)
        | none => (finalResult f nameQuery true matchedName false none, c)
      else
        (finalResult f nameQuery true matchedName false none,
          { c with skipped_non_utf8 := c.skipped_non_utf8 + 1 })
    else
      (finalResult f nameQuery true matchedName false none,
        { c with skipped_unreadable_text := c.skipped_unreadable_text + 1 })

/-- Models `analyze_file` (lines 322-462). The classification guard block
(lines 341-359) is flattened into `skipNonText`: with no allow-list a PDF
is skipped when PDF inclusion is off and a non-PDF when the text heuristic
rejects it; with an allow-list only the PDF/inclusion-off case skips. -/
def analyzeFile (nameQuery : Option (List Char)) (contentRe : Option CRegex)
    (maxBytes : Nat) (allowedExt : Option (List (List Char)))
    (includePdf : Bool) (f : FsFile) (c : Counters) :
    Option MatchResult × Counters :=
  let matchedName := computeMatchedName f.fileName nameQuery
  match contentRe with
  | none => (finalResult f nameQuery false matchedName false none, c)
  | some re =>
    let pdf := is_pdf f
    let skipNonText : Bool :=
      match allowedExt with
      | none => if pdf then !includePdf else !is_probably_text f
      | some _ => pdf && !includePdf
    if skipNonText then
      (some_if_name_only f nameQuery matchedName,
        { c with skipped_non_text := c.skipped_non_text + 1 })
    else if pdf then pdfScan nameQuery re f matchedName c
    else textScan nameQuery re maxBytes f matchedName c

/-- Lexicographic comparison of path strings, modelling the `Ord` ordering
of Rust `String` used by `results.sort_by(|a, b| a.path.cmp(&b.path))`
(line 266); on valid Unicode, byte order and character order agree. -/
def lexLe : List Char → List Char → Bool
  | [], _ => true
  | _ :: _, [] => false
  | a :: as, b :: bs => if a < b then true else if b < a then false else lexLe as bs

/-- The sort relation of line 266: ordered by path string. -/
def pathLe (a b : MatchResult) : Prop := lexLe a.path b.path = true

instance : DecidableRel pathLe := fun a b =>
  inferInstanceAs (Decidable (lexLe a.path b.path = true))

/-- Models the `RunStats` record (lines 119-136), without the wall-clock
field. -/
structure RunStats where
  files_discovered : Nat
  files_scanned_text : Nat
  files_scanned_pdf : Nat
  files_skipped_non_text : Nat
  files_skipped_too_large : Nat
  files_skipped_non_utf8 : Nat
  files_skipped_unreadable_text : Nat
  files_skipped_unreadable_pdf : Nat
  matches_total : Nat
  matches_printed : Nat
deriving DecidableEq

/-- One step of the collection loop of `run_search` (lines 232-264):
analyze one file against the shared counters and append its outcome, if
any, to the result list. -/
def collectStep (nameQuery : Option (List Char)) (contentRe : Option CRegex)
    (maxBytes : Nat) (allowedExt : Option (List (List Char)))
    (includePdf : Bool) (acc : List MatchResult × Counters) (f : FsFile) :
    List MatchResult × Counters :=
  match analyzeFile nameQuery contentRe maxBytes allowedExt includePdf f acc.2 with
  | (some m, c) => (acc.1 ++ [m], c)
  | (none, c) => (acc.1, c)

/-- The collection phase of `run_search` (lines 212-264): all candidate
files analyzed against counters starting at zero. The parallel
`par_iter().filter_map().collect()` preserves input order and the counter
increments commute, so the sequential fold computes the same outcome. -/
def collectResults (nameQuery : Option (List Char)) (contentRe : Option CRegex)
    (maxBytes : Nat) (allowedExt : Option (List (List Char)))
    (includePdf : Bool) (files : List FsFile) : List MatchResult × Counters :=
  files.foldl (collectStep nameQuery contentRe maxBytes allowedExt includePdf)
    ([], zeroCounters)

/-- Models `run_search` from candidate enumeration to the final snapshot
(lines 210-292): collect outcomes, sort by path, count `matches_total`
before truncation, truncate to the limit when it is exceeded, and read the
counters into `RunStats`. -/
def runSearch (nameQuery : Option (List Char)) (contentRe : Option CRegex)
    (maxBytes : Nat) (allowedExt : Option (List (List Char)))
    (includePdf : Bool) (limit : Option Nat) (files : List FsFile) :
    RunStats × List MatchResult :=
  let rc := collectResults nameQuery contentRe maxBytes allowedExt includePdf files
  let results := List.insertionSort pathLe rc.1
  let c := rc.2
  let matches_total := results.length
  let results_print :=
    match limit with
    | some l => if results.length > l then results.take l else results
    | none => results
  let matches_printed := results_print.length
  ({ files_discovered := files.length,
     files_scanned_text := c.scanned_text,
     files_scanned_pdf := c.scanned_pdf,
     files_skipped_non_text := c.skipped_non_text,
     files_skipped_too_large := c.skipped_too_large,
     files_skipped_non_utf8 := c.skipped_non_utf8,
     files_skipped_unreadable_text := c.skipped_unreadable_text,
     files_skipped_unreadable_pdf := c.skipped_unreadable_pdf,
     matches_total := matches_total,
     matches_printed := matches_printed }, results_print)

/-- The condition under which `analyze_file` reaches its text branch for a
non-PDF file (lines 341-359): with no allow-list the recognized-text
heuristic must accept the file, with an allow-list every non-PDF candidate
is eligible. -/
def textEligible (allowedExt : Option (List (List Char))) (f : FsFile) : Bool :=
  match allowedExt with
  | none => is_probably_text f
  | some _ => true

/-- The double-counting condition of `analyze_file`: a file that lands in a
scanned counter and in a skipped counter in the same run — a PDF whose scan
was attempted (so `scanned_pdf` was already incremented, line 362) but
whose lock acquisition or extraction then failed, or a text file that was
opened (so `scanned_text` was already incremented, line 427) but whose
bounded read then failed or whose bytes were not valid UTF-8. -/
def overCounted (maxBytes : Nat) (allowedExt : Option (List (List Char)))
    (includePdf : Bool) (f : FsFile) : Bool :=
  let pdf := is_pdf f
  let skipNonText : Bool :=
    match allowedExt with
    | none => if pdf then !includePdf else !is_probably_text f
    | some _ => pdf && !includePdf
  if skipNonText then false
  else if pdf then !f.lockOk || f.pdfExtract.isNone
  else
    f.metaOk && !decide (f.content.length > maxBytes) && f.openOk &&
      (!f.readOk || !validUtf8 (f.content.take maxBytes))

/-- A content pattern that never matches. -/
def noMatchRe : CRegex := ⟨fun _ => none⟩

/-- A content pattern whose first match is always the span `[0, 1)`. -/
def alwaysMatchRe : CRegex := ⟨fun _ => some (0, 1)⟩

/-- A readable `.txt` file whose single byte `0xFF` is not valid UTF-8. -/
def nonUtf8File : FsFile :=
  { fileName := String.toList "data.txt", path := String.toList "data.txt",
    fileExt := some (String.toList "txt"), content := [255],
    metaOk := true, openOk := true, readOk := true, lockOk := true,
    pdfExtract := none }

/-- A PDF file whose text extraction fails (panic or error result). -/
def corruptPdfFile : FsFile :=
  { fileName := String.toList "b.pdf", path := String.toList "b.pdf",
    fileExt := some (String.toList "pdf"), content := [],
    metaOk := true, openOk := true, readOk := true, lockOk := true,
    pdfExtract := none }

/-- A readable file with an extension outside the recognized-text table. -/
def binExtFile : FsFile :=
  { fileName := String.toList "a.bin", path := String.toList "a.bin",
    fileExt := some (String.toList "bin"), content := [104],
    metaOk := true, openOk := true, readOk := true, lockOk := true,
    pdfExtract := none }

/-- A readable `.txt` file of 11 ASCII bytes, one over a cap of 10. -/
def oversizeFile : FsFile :=
  { fileName := String.toList "big.txt", path := String.toList "big.txt",
    fileExt := some (String.toList "txt"), content := List.replicate 11 104,
    metaOk := true, openOk := true, readOk := true, lockOk := true,
    pdfExtract := none }

/-- A readable `.txt` file of 10 ASCII bytes, exactly at a cap of 10. -/
def capSizeFile : FsFile :=
  { fileName := String.toList "cap.txt", path := String.toList "cap.txt",
    fileExt := some (String.toList "txt"), content := List.replicate 10 104,
    metaOk := true, openOk := true, readOk := true, lockOk := true,
    pdfExtract := none }

/-- A readable empty `.txt` file named `a.txt`. -/
def fileA : FsFile :=
  { fileName := String.toList "a.txt", path := String.toList "a.txt",
    fileExt := some (String.toList "txt"), content := [],
    metaOk := true, openOk := true, readOk := true, lockOk := true,
    pdfExtract := none }

/-- A readable empty `.txt` file named `ba.txt`. -/
def fileB : FsFile :=
  { fileName := String.toList "ba.txt", path := String.toList "ba.txt",
    fileExt := some (String.toList "txt"), content := [],
    metaOk := true, openOk := true, readOk := true, lockOk := true,
    pdfExtract := none }

/-! ### Basic lemmas about the path ordering -/

theorem lexLe_total : ∀ a b : List Char, lexLe a b = true ∨ lexLe b a = true
  | [], _ => Or.inl rfl
  | _ :: _, [] => Or.inr rfl
  | a :: as, b :: bs => by
    rcases lt_trichotomy a b with h | h | h
    · exact Or.inl (by simp [lexLe, h])
    · subst h
      have hirr : ¬ a < a := lt_irrefl a
      rcases lexLe_total as bs with ih | ih
      · exact Or.inl (by simp [lexLe, hirr, ih])
      · exact Or.inr (by simp [lexLe, hirr, ih])
    · exact Or.inr (by simp [lexLe, h])

theorem lexLe_trans : ∀ a b c : List Char,
    lexLe a b = true → lexLe b c = true → lexLe a c = true
  | [], _, _, _, _ => rfl
  | _ :: _, [], _, h, _ => by simp [lexLe] at h
  | _ :: _, _ :: _, [], _, h => by simp [lexLe] at h
  | a :: as, b :: bs, c :: cs, h1, h2 => by
    simp only [lexLe] at h1 h2 ⊢
    rcases lt_trichotomy a b with hab | hab | hab
    · rcases lt_trichotomy b c with hbc | hbc | hbc
      · simp [lt_trans hab hbc]
      · subst hbc; simp [hab]
      · rw [if_neg (asymm hbc), if_pos hbc] at h2
        exact absurd h2 (by simp)
    · subst hab
      rw [if_neg (lt_irrefl a), if_neg (lt_irrefl a)] at h1
      rcases lt_trichotomy a c with hac | hac | hac
      · simp [hac]
      · subst hac
        rw [if_neg (lt_irrefl a), if_neg (lt_irrefl a)] at h2 ⊢
        exact lexLe_trans as bs cs h1 h2
      · rw [if_neg (asymm hac), if_pos hac] at h2
        exact absurd h2 (by simp)
    · rw [if_neg (asymm hab), if_pos hab] at h1
      exact absurd h1 (by simp)

instance : IsTotal MatchResult pathLe :=
  ⟨fun a b => lexLe_total a.path b.path⟩

instance : IsTrans MatchResult pathLe :=
  ⟨fun a b c h1 h2 => lexLe_trans a.path b.path c.path h1 h2⟩

/-! ### Counter bookkeeping of the two scan branches -/

theorem counterSum_pdfScan (nq : Option (List Char)) (re : CRegex) (f : FsFile)
    (mn : Bool) (c : Counters) :
    counterSum (pdfScan nq re f mn c).2 =
      counterSum c + 1 + (if !f.lockOk || f.pdfExtract.isNone then 1 else 0) := by
  unfold pdfScan
  cases hl : f.lockOk
  · simp [counterSum, hl]
    omega
  · cases hp : f.pdfExtract with
    | none => simp [counterSum, hl, hp]; omega
    | some t =>
      rcases hf : re.find t with _ | ⟨ms, me⟩ <;>
        simp [counterSum, hl, hp, hf] <;> omega

theorem counterSum_textScan (nq : Option (List Char)) (re : CRegex)
    (mb : Nat) (f : FsFile) (mn : Bool) (c : Counters) :
    counterSum (textScan nq re mb f mn c).2 =
      counterSum c + 1 +
        (if f.metaOk && !decide (f.content.length > mb) && f.openOk &&
            (!f.readOk || !validUtf8 (f.content.take mb)) then 1 else 0) := by
  unfold textScan
  cases hm : f.metaOk
  · simp [counterSum, hm]; omega
  · by_cases hlen : f.content.length > mb
    · simp [counterSum, hm, hlen]; omega
    · cases ho : f.openOk
      · simp [counterSum, hm, hlen, ho]; omega
      · cases hr : f.readOk
        · simp [counterSum, hm, hlen, ho, hr]; omega
        · cases hv : validUtf8 (f.content.take mb)
          · simp [counterSum, hm, hlen, ho, hr, hv]; omega
          · rcases hf : re.find (f.content.take mb) with _ | ⟨ms, me⟩ <;>
              simp [counterSum, hm, hlen, ho, hr, hv, hf] <;> omega

theorem counterSum_analyzeFile (nq : Option (List Char)) (re : CRegex)
    (mb : Nat) (ae : Option (List (List Char))) (ip : Bool) (f : FsFile)
    (c : Counters) :
    counterSum (analyzeFile nq (some re) mb ae ip f c).2 =
      counterSum c + 1 + (if overCounted mb ae ip f then 1 else 0) := by
  unfold analyzeFile overCounted
  cases ae with
  | none =>
    cases hpdf : is_pdf f
    · cases ht : is_probably_text f
      · simp [counterSum, hpdf, ht]; omega
      · simp [hpdf, ht, counterSum_textScan]
    · cases hip : ip
      · simp [counterSum, hpdf, hip]; omega
      · simp [hpdf, hip, counterSum_pdfScan]
  | some l =>
    cases hpdf : is_pdf f
    · simp [hpdf, counterSum_textScan]
    · cases hip : ip
      · simp [counterSum, hpdf, hip]; omega
      · simp [hpdf, hip, counterSum_pdfScan]

/-! ### The collection fold -/

theorem collectStep_snd (nq : Option (List Char)) (cre : Option CRegex)
    (mb : Nat) (ae : Option (List (List Char))) (ip : Bool)
    (acc : List MatchResult × Counters) (f : FsFile) :
    (collectStep nq cre mb ae ip acc f).2 =
      (analyzeFile nq cre mb ae ip f acc.2).2 := by
  unfold collectStep
  rcases hA : analyzeFile nq cre mb ae ip f acc.2 with ⟨r, c⟩
  cases r <;> simp

theorem collectStep_fst (nq : Option (List Char)) (cre : Option CRegex)
    (mb : Nat) (ae : Option (List (List Char))) (ip : Bool)
    (acc : List MatchResult × Counters) (f : FsFile) :
    (collectStep nq cre mb ae ip acc f).1 =
      acc.1 ++ (analyzeFile nq cre mb ae ip f acc.2).1.toList := by
  unfold collectStep
  rcases hA : analyzeFile nq cre mb ae ip f acc.2 with ⟨r, c⟩
  cases r <;> simp

theorem counterSum_foldl (nq : Option (List Char)) (re : CRegex) (mb : Nat)
    (ae : Option (List (List Char))) (ip : Bool) :
    ∀ (files : List FsFile) (acc : List MatchResult × Counters),
      counterSum (files.foldl (collectStep nq (some re) mb ae ip) acc).2 =
        counterSum acc.2 + files.length + files.countP (overCounted mb ae ip) := by
  intro files
  induction files with
  | nil => intro acc; simp
  | cons f t ih =>
    intro acc
    simp only [List.foldl_cons]
    rw [ih, collectStep_snd, counterSum_analyzeFile, List.countP_cons,
      List.length_cons]
    by_cases hov : overCounted mb ae ip f = true <;> simp [hov] <;> omega

/-! ### Result paths come from the analyzed file -/

theorem path_of_some_if_name_only {f : FsFile} {nq : Option (List Char)}
    {mn : Bool} {m : MatchResult} (h : some_if_name_only f nq mn = some m) :
    m.path = f.path := by
  unfold some_if_name_only at h
  split at h
  · cases h; rfl
  · cases h

theorem path_of_finalResult {f : FsFile} {nq : Option (List Char)}
    {hc mn mc : Bool} {sn : Option (List Nat)} {m : MatchResult}
    (h : finalResult f nq hc mn mc sn = some m) : m.path = f.path := by
  unfold finalResult at h
  split at h
  · cases h; rfl
  · cases h

theorem path_of_pdfScan {nq : Option (List Char)} {re : CRegex} {f : FsFile}
    {mn : Bool} {c : Counters} {m : MatchResult}
    (h : (pdfScan nq re f mn c).1 = some m) : m.path = f.path := by
  unfold pdfScan at h
  cases hl : f.lockOk <;> simp only [hl] at h
  · simp at h
    exact path_of_some_if_name_only h
  · cases hp : f.pdfExtract with
    | none =>
      simp [hp] at h
      exact path_of_some_if_name_only h
    | some t =>
      rcases hf : re.find t with _ | ⟨ms, me⟩ <;> simp [hp, hf] at h <;>
        exact path_of_finalResult h

theorem path_of_textScan {nq : Option (List Char)} {re : CRegex} {mb : Nat}
    {f : FsFile} {mn : Bool} {c : Counters} {m : MatchResult}
    (h : (textScan nq re mb f mn c).1 = some m) : m.path = f.path := by
  unfold textScan at h
  cases hm : f.metaOk <;> simp only [hm] at h
  · simp at h
    exact path_of_some_if_name_only h
  · by_cases hlen : f.content.length > mb <;> simp only [hlen] at h
    · simp at h
      exact path_of_some_if_name_only h
    · cases ho : f.openOk <;> simp only [ho] at h
      · simp at h
        exact path_of_some_if_name_only h
      · cases hr : f.readOk <;> simp only [hr] at h
        · simp at h
          exact path_of_finalResult h
        · cases hv : validUtf8 (f.content.take mb) <;> simp only [hv] at h
          · simp at h
            exact path_of_finalResult h
          · rcases hf : re.find (f.content.take mb) with _ | ⟨ms, me⟩ <;>
              simp [hf] at h <;> exact path_of_finalResult h

theorem path_of_analyzeFile {nq : Option (List Char)} {cre : Option CRegex}
    {mb : Nat} {ae : Option (List (List Char))} {ip : Bool} {f : FsFile}
    {c : Counters} {m : MatchResult}
    (h : (analyzeFile nq cre mb ae ip f c).1 = some m) : m.path = f.path := by
  unfold analyzeFile at h
  cases cre with
  | none =>
    simp at h
    exact path_of_finalResult h
  | some re =>
    cases ae with
    | none =>
      cases hpdf : is_pdf f
      · cases ht : is_probably_text f
        · simp [hpdf, ht] at h
          exact path_of_some_if_name_only h
        · simp [hpdf, ht] at h
          exact path_of_textScan h
      · cases hip : ip
        · simp [hpdf, hip] at h
          exact path_of_some_if_name_only h
        · simp [hpdf, hip] at h
          exact path_of_pdfScan h
    | some l =>
      cases hpdf : is_pdf f
      · simp [hpdf] at h
        exact path_of_textScan h
      · cases hip : ip
        · simp [hpdf, hip] at h
          exact path_of_some_if_name_only h
        · simp [hpdf, hip] at h
          exact path_of_pdfScan h

theorem collect_paths_sublist (nq : Option (List Char)) (cre : Option CRegex)
    (mb : Nat) (ae : Option (List (List Char))) (ip : Bool) :
    ∀ (files : List FsFile) (acc : List MatchResult × Counters),
      List.Sublist
        ((files.foldl (collectStep nq cre mb ae ip) acc).1.map MatchResult.path)
        (acc.1.map MatchResult.path ++ files.map FsFile.path) := by
  intro files
  induction files with
  | nil => intro acc; simp
  | cons f t ih =>
    intro acc
    simp only [List.foldl_cons, List.map_cons]
    have h2 : List.Sublist
        ((collectStep nq cre mb ae ip acc f).1.map MatchResult.path)
        (acc.1.map MatchResult.path ++ [f.path]) := by
      rw [collectStep_fst]
      rcases hA : (analyzeFile nq cre mb ae ip f acc.2).1 with _ | m
      · simp
      · have hp := path_of_analyzeFile hA
        simp [hp]
    have heq : (acc.1.map MatchResult.path ++ [f.path]) ++ t.map FsFile.path =
        acc.1.map MatchResult.path ++ (f.path :: t.map FsFile.path) := by
      simp
    have h3 := h2.append_right (t.map FsFile.path)
    rw [heq] at h3
    exact (ih (collectStep nq cre mb ae ip acc f)).trans h3

/-! ### Snippet machinery -/

theorem isCharBoundary_zero (s : List Nat) : isCharBoundary s 0 = true := by
  simp [isCharBoundary]

theorem isCharBoundary_clampDown (s : List Nat) :
    ∀ j, isCharBoundary s (clampDown s j) = true
  | 0 => isCharBoundary_zero s
  | j + 1 => by
    unfold clampDown
    split
    · assumption
    · exact isCharBoundary_clampDown s j

theorem isCharBoundary_clamp (s : List Nat) (i : Nat) :
    isCharBoundary s (clamp_to_char_boundary s i) = true :=
  isCharBoundary_clampDown s _

theorem charCount_append (a b : List Nat) :
    charCount (a ++ b) = charCount a + charCount b := by
  simp [charCount, List.filter_append]

theorem spanCont_fst_cont :
    ∀ l : List Nat, ∀ b ∈ (spanCont l).1, isCont b = true := by
  intro l
  induction l with
  | nil => simp [spanCont]
  | cons x t ih =>
    by_cases hx : isCont x = true
    · simp only [spanCont, hx, if_true]
      intro b hb
      rcases List.mem_cons.1 hb with rfl | hb
      · exact hx
      · exact ih b hb
    · simp [spanCont, hx]

theorem spanCont_fst_mem :
    ∀ l : List Nat, ∀ b ∈ (spanCont l).1, b ∈ l := by
  intro l
  induction l with
  | nil => simp [spanCont]
  | cons x t ih =>
    by_cases hx : isCont x = true
    · simp only [spanCont, hx, if_true]
      intro b hb
      rcases List.mem_cons.1 hb with rfl | hb
      · exact List.mem_cons_self _ _
      · exact List.mem_cons_of_mem _ (ih b hb)
    · simp [spanCont, hx]

theorem spanCont_snd_mem :
    ∀ l : List Nat, ∀ b ∈ (spanCont l).2, b ∈ l := by
  intro l
  induction l with
  | nil => simp [spanCont]
  | cons x t ih =>
    by_cases hx : isCont x = true
    · simp only [spanCont, hx, if_true]
      intro b hb
      exact List.mem_cons_of_mem _ (ih b hb)
    · simp [spanCont, hx]

theorem charCount_spanCont_fst (l : List Nat) : charCount (spanCont l).1 = 0 := by
  have h := spanCont_fst_cont l
  simp only [charCount, List.length_eq_zero]
  rw [List.filter_eq_nil_iff]
  intro b hb
  simp [h b hb]

theorem charCount_takeChars : ∀ (n : Nat) (l : List Nat),
    charCount (takeChars n l) ≤ n
  | 0, _ => by simp [takeChars, charCount]
  | n + 1, [] => by simp [takeChars, charCount]
  | n + 1, b :: rest => by
    unfold takeChars
    have h1 : (List.filter (fun x => !isCont x) (spanCont rest).1).length = 0 :=
      charCount_spanCont_fst rest
    have h2 : (List.filter (fun x => !isCont x)
        (takeChars n (spanCont rest).2)).length ≤ n :=
      charCount_takeChars n (spanCont rest).2
    by_cases hb : isCont b = true <;>
      simp [charCount, List.filter_append, List.filter_cons, hb] <;>
      omega

theorem mem_takeChars : ∀ (n : Nat) (l : List Nat) (b : Nat),
    b ∈ takeChars n l → b ∈ l
  | 0, _, b, h => by simp [takeChars] at h
  | n + 1, [], b, h => by simp [takeChars] at h
  | n + 1, x :: rest, b, h => by
    unfold takeChars at h
    rcases List.mem_cons.1 h with rfl | h
    · exact List.mem_cons_self _ _
    · rcases List.mem_append.1 h with h | h
      · exact List.mem_cons_of_mem _ (spanCont_fst_mem rest b h)
      · exact List.mem_cons_of_mem _
          (spanCont_snd_mem rest b (mem_takeChars n _ b h))

theorem snippetWindow_no_newline (s : List Nat) (ms me ctx : Nat) :
    ∀ b ∈ snippetWindow s ms me ctx, b ≠ 10 := by
  unfold snippetWindow
  intro b hb
  simp only [List.mem_map] at hb
  rcases hb with ⟨a, _, ha⟩
  by_cases h : a = 10
  · rw [← ha]
    simp [h]
  · rw [← ha]
    simp [h]

theorem snippet_no_newline (s : List Nat) (ms me ctx mx : Nat) :
    ∀ b ∈ snippet_around_match s ms me ctx mx, b ≠ 10 := by
  intro b hb
  simp only [snippet_around_match] at hb
  split at hb
  · exact snippetWindow_no_newline s ms me ctx b (mem_takeChars _ _ _ hb)
  · exact snippetWindow_no_newline s ms me ctx b hb

theorem snippet_charCount (s : List Nat) (ms me ctx mx : Nat) :
    charCount (snippet_around_match s ms me ctx mx) ≤ mx := by
  simp only [snippet_around_match]
  split
  · exact charCount_takeChars _ _
  · omega

/-! ### Substring correctness of the name matcher -/

theorem startsWithL_iff {α : Type} [BEq α] [LawfulBEq α] :
    ∀ (hay pre : List α), startsWithL hay pre = true ↔ ∃ t, hay = pre ++ t
  | hay, [] => by simp [startsWithL]
  | [], b :: bs => by simp [startsWithL]
  | a :: as, b :: bs => by
    simp only [startsWithL, Bool.and_eq_true, beq_iff_eq]
    constructor
    · rintro ⟨rfl, h⟩
      rcases (startsWithL_iff as bs).1 h with ⟨t, rfl⟩
      exact ⟨t, rfl⟩
    · rintro ⟨t, ht⟩
      rw [List.cons_append] at ht
      injection ht with h1 h2
      exact ⟨h1, (startsWithL_iff as bs).2 ⟨t, h2⟩⟩

theorem containsSub_iff {α : Type} [BEq α] [LawfulBEq α] :
    ∀ (hay needle : List α),
      containsSub hay needle = true ↔ ∃ pre post, hay = pre ++ needle ++ post
  | [], needle => by
    rw [containsSub, startsWithL_iff]
    constructor
    · rintro ⟨t, ht⟩
      exact ⟨[], t, by simpa using ht⟩
    · rintro ⟨pre, post, h⟩
      rcases List.append_eq_nil.1 h.symm with ⟨h1, h2⟩
      rcases List.append_eq_nil.1 h1 with ⟨rfl, rfl⟩
      exact ⟨post, by simp [h2]⟩
  | a :: t, needle => by
    rw [containsSub]
    simp only [Bool.or_eq_true]
    rw [startsWithL_iff, containsSub_iff t needle]
    constructor
    · rintro (⟨s, hs⟩ | ⟨pre, post, rfl⟩)
      · exact ⟨[], s, by simpa using hs⟩
      · exact ⟨a :: pre, post, by simp⟩
    · rintro ⟨pre, post, h⟩
      cases pre with
      | nil => exact Or.inl ⟨post, by simpa using h⟩
      | cons x pre =>
        rw [List.cons_append, List.cons_append] at h
        injection h with h1 h2
        exact Or.inr ⟨pre, post, h2⟩

/-! ### Branch reduction and per-counter effects -/

theorem analyzeFile_pdf_branch (nq : Option (List Char)) (re : CRegex)
    (mb : Nat) (ae : Option (List (List Char))) (f : FsFile) (c : Counters)
    (hpdf : is_pdf f = true) :
    analyzeFile nq (some re) mb ae true f c =
      pdfScan nq re f (computeMatchedName f.fileName nq) c := by
  unfold analyzeFile
  cases ae <;> simp [hpdf]

theorem analyzeFile_text_branch (nq : Option (List Char)) (re : CRegex)
    (mb : Nat) (ae : Option (List (List Char))) (ip : Bool) (f : FsFile)
    (c : Counters) (hpdf : is_pdf f = false)
    (helig : textEligible ae f = true) :
    analyzeFile nq (some re) mb ae ip f c =
      textScan nq re mb f (computeMatchedName f.fileName nq) c := by
  unfold analyzeFile
  cases ae with
  | none =>
    have helig' : is_probably_text f = true := helig
    simp [hpdf, helig']
  | some l => simp [hpdf]

theorem textScan_scanned_text (nq : Option (List Char)) (re : CRegex)
    (mb : Nat) (f : FsFile) (mn : Bool) (c : Counters) :
    (textScan nq re mb f mn c).2.scanned_text =
      c.scanned_text +
        (if f.metaOk && !decide (f.content.length > mb) && f.openOk then 1
         else 0) := by
  unfold textScan
  cases hm : f.metaOk
  · simp [hm]
  · by_cases hlen : f.content.length > mb
    · simp [hm, hlen]
    · cases ho : f.openOk
      · simp [hm, hlen, ho]
      · cases hr : f.readOk
        · simp [hm, hlen, ho, hr]
        · cases hv : validUtf8 (f.content.take mb)
          · simp [hm, hlen, ho, hr, hv]
          · rcases hf : re.find (f.content.take mb) with _ | ⟨ms, me⟩ <;>
              simp [hm, hlen, ho, hr, hv, hf]

theorem pdfScan_scanned_pdf (nq : Option (List Char)) (re : CRegex)
    (f : FsFile) (mn : Bool) (c : Counters) :
    (pdfScan nq re f mn c).2.scanned_pdf = c.scanned_pdf + 1 := by
  unfold pdfScan
  cases hl : f.lockOk
  · simp [hl]
  · cases hp : f.pdfExtract with
    | none => simp [hl, hp]
    | some t =>
      rcases hf : re.find t with _ | ⟨ms, me⟩ <;> simp [hl, hp, hf]

theorem pdfScan_unreadable (nq : Option (List Char)) (re : CRegex)
    (f : FsFile) (mn : Bool) (c : Counters) :
    (pdfScan nq re f mn c).2.skipped_unreadable_pdf =
      c.skipped_unreadable_pdf +
        (if !f.lockOk || f.pdfExtract.isNone then 1 else 0) := by
  unfold pdfScan
  cases hl : f.lockOk
  · simp [hl]
  · cases hp : f.pdfExtract with
    | none => simp [hl, hp]
    | some t =>
      rcases hf : re.find t with _ | ⟨ms, me⟩ <;> simp [hl, hp, hf]

theorem pdfScan_fail_fst (nq : Option (List Char)) (re : CRegex) (f : FsFile)
    (mn : Bool) (c : Counters)
    (h : (!f.lockOk || f.pdfExtract.isNone) = true) :
    (pdfScan nq re f mn c).1 = some_if_name_only f nq mn := by
  unfold pdfScan
  cases hl : f.lockOk
  · simp [hl]
  · cases hp : f.pdfExtract with
    | none => simp [hl, hp]
    | some t => simp [hl, hp] at h

/-! ### Claim theorems -/

/-- C1 (amended): for every run with a content query supplied, every
discovered file is counted in at least one content-handling class, and the
sum of the seven class counters equals files_discovered plus the number of
double-counted files (`overCounted`): text files that were opened but whose
bounded read failed or whose bytes were not valid UTF-8, and scanned PDFs
whose lock acquisition or extraction failed — each such file lands in a
scanned counter and in a skipped counter. -/
theorem claim1_class_sum (nq : Option (List Char)) (re : CRegex) (mb : Nat)
    (ae : Option (List (List Char))) (ip : Bool) (limit : Option Nat)
    (files : List FsFile) :
    (runSearch nq (some re) mb ae ip limit files).1.files_scanned_text +
      (runSearch nq (some re) mb ae ip limit files).1.files_scanned_pdf +
      (runSearch nq (some re) mb ae ip limit files).1.files_skipped_non_text +
      (runSearch nq (some re) mb ae ip limit files).1.files_skipped_too_large +
      (runSearch nq (some re) mb ae ip limit files).1.files_skipped_non_utf8 +
      (runSearch nq (some re) mb ae ip limit
        files).1.files_skipped_unreadable_text +
      (runSearch nq (some re) mb ae ip limit
        files).1.files_skipped_unreadable_pdf =
      (runSearch nq (some re) mb ae ip limit files).1.files_discovered +
        files.countP (overCounted mb ae ip) := by
  have h := counterSum_foldl nq re mb ae ip files ([], zeroCounters)
  simp only [counterSum, zeroCounters] at h
  simp only [runSearch, collectResults, zeroCounters]
  omega

/-- C1 counterexample: a single corrupt PDF analyzed with PDF inclusion on
is counted both in scanned-as-pdf and in skipped-unreadable-pdf, so the
seven classes sum to 2 while files_discovered is 1 — the claimed strict
partition fails. -/
theorem claim1_counterexample :
    (runSearch none (some noMatchRe) 2000000 none true none
        [corruptPdfFile]).1.files_scanned_text +
      (runSearch none (some noMatchRe) 2000000 none true none
        [corruptPdfFile]).1.files_scanned_pdf +
      (runSearch none (some noMatchRe) 2000000 none true none
        [corruptPdfFile]).1.files_skipped_non_text +
      (runSearch none (some noMatchRe) 2000000 none true none
        [corruptPdfFile]).1.files_skipped_too_large +
      (runSearch none (some noMatchRe) 2000000 none true none
        [corruptPdfFile]).1.files_skipped_non_utf8 +
      (runSearch none (some noMatchRe) 2000000 none true none
        [corruptPdfFile]).1.files_skipped_unreadable_text +
      (runSearch none (some noMatchRe) 2000000 none true none
        [corruptPdfFile]).1.files_skipped_unreadable_pdf = 2 ∧
    (runSearch none (some noMatchRe) 2000000 none true none
        [corruptPdfFile]).1.files_discovered = 1 := by
  constructor <;> rfl

/-- C2 (amended): for every file analyzed as text under a content query,
the scanned-as-text counter is incremented exactly when the metadata read
succeeds, the length is within the byte cap, and the open succeeds — that
is, before the bounded read — so it is incremented even when the read then
fails or the bytes are not valid UTF-8. -/
theorem claim2_scanned_text (nq : Option (List Char)) (re : CRegex) (mb : Nat)
    (ae : Option (List (List Char))) (ip : Bool) (f : FsFile) (c : Counters)
    (hpdf : is_pdf f = false) (helig : textEligible ae f = true) :
    (analyzeFile nq (some re) mb ae ip f c).2.scanned_text =
      c.scanned_text +
        (if f.metaOk && !decide (f.content.length > mb) && f.openOk then 1
         else 0) := by
  rw [analyzeFile_text_branch nq re mb ae ip f c hpdf helig,
    textScan_scanned_text]

/-- C2 witness: the amended statement evaluated on a concrete readable
non-UTF-8 text file. -/
theorem claim2_witness :
    (analyzeFile none (some noMatchRe) 10 none false nonUtf8File
        zeroCounters).2.scanned_text =
      zeroCounters.scanned_text +
        (if nonUtf8File.metaOk && !decide (nonUtf8File.content.length > 10) &&
            nonUtf8File.openOk then 1 else 0) :=
  claim2_scanned_text none noMatchRe 10 none false nonUtf8File zeroCounters
    (by decide) (by decide)

/-- C2 counterexample: `nonUtf8File` is opened and read successfully but
its bytes are not valid UTF-8; the claim says scanned-as-text must not be
incremented then, yet the code increments it together with
skipped-non-utf8. -/
theorem claim2_counterexample :
    validUtf8 nonUtf8File.content = false ∧
    (analyzeFile none (some noMatchRe) 10 none false nonUtf8File
        zeroCounters).2.scanned_text = 1 ∧
    (analyzeFile none (some noMatchRe) 10 none false nonUtf8File
        zeroCounters).2.skipped_non_utf8 = 1 :=
  ⟨rfl, rfl, rfl⟩

/-- C3 (amended): for every PDF analyzed with PDF inclusion on, the
scanned-as-pdf counter is incremented unconditionally before extraction is
attempted; on lock or extraction failure the skipped-unreadable-pdf counter
is additionally incremented and the file falls back to name-only
evaluation. -/
theorem claim3_scanned_pdf (nq : Option (List Char)) (re : CRegex) (mb : Nat)
    (ae : Option (List (List Char))) (f : FsFile) (c : Counters)
    (hpdf : is_pdf f = true) :
    (analyzeFile nq (some re) mb ae true f c).2.scanned_pdf =
      c.scanned_pdf + 1 ∧
    (analyzeFile nq (some re) mb ae true f c).2.skipped_unreadable_pdf =
      c.skipped_unreadable_pdf +
        (if !f.lockOk || f.pdfExtract.isNone then 1 else 0) ∧
    ((!f.lockOk || f.pdfExtract.isNone) = true →
      (analyzeFile nq (some re) mb ae true f c).1 =
        some_if_name_only f nq (computeMatchedName f.fileName nq)) := by
  rw [analyzeFile_pdf_branch nq re mb ae f c hpdf]
  exact ⟨pdfScan_scanned_pdf nq re f _ c, pdfScan_unreadable nq re f _ c,
    fun h => pdfScan_fail_fst nq re f _ c h⟩

/-- C3 witness: the amended statement evaluated on a concrete PDF whose
extraction fails. -/
theorem claim3_witness :
    (analyzeFile none (some noMatchRe) 2000000 none true corruptPdfFile
        zeroCounters).2.scanned_pdf = zeroCounters.scanned_pdf + 1 ∧
    (analyzeFile none (some noMatchRe) 2000000 none true corruptPdfFile
        zeroCounters).2.skipped_unreadable_pdf =
      zeroCounters.skipped_unreadable_pdf +
        (if !corruptPdfFile.lockOk || corruptPdfFile.pdfExtract.isNone then 1
         else 0) ∧
    ((!corruptPdfFile.lockOk || corruptPdfFile.pdfExtract.isNone) = true →
      (analyzeFile none (some noMatchRe) 2000000 none true corruptPdfFile
          zeroCounters).1 =
        some_if_name_only corruptPdfFile none
          (computeMatchedName corruptPdfFile.fileName none)) :=
  claim3_scanned_pdf none noMatchRe 2000000 none corruptPdfFile zeroCounters
    (by decide)

/-- C3 counterexample: `corruptPdfFile` fails extraction, yet scanned-as-pdf
is incremented to 1 (the claim requires it to stay 0 on failure, with only
skipped-unreadable-pdf incremented). -/
theorem claim3_counterexample :
    corruptPdfFile.pdfExtract = none ∧
    (analyzeFile none (some noMatchRe) 2000000 none true corruptPdfFile
        zeroCounters).2.scanned_pdf = 1 ∧
    (analyzeFile none (some noMatchRe) 2000000 none true corruptPdfFile
        zeroCounters).2.skipped_unreadable_pdf = 1 :=
  ⟨rfl, rfl, rfl⟩

/-- C4: when a content query is present and an extension allow-list was
supplied, every non-PDF file is treated as text-eligible (the
recognized-text-extension heuristic is bypassed and the text scan runs),
while a PDF with PDF inclusion off is counted as skipped-non-text and
evaluated for name-only matching even when "pdf" is in the allow-list. -/
theorem claim4_allow_list (nq : Option (List Char)) (re : CRegex) (mb : Nat)
    (l : List (List Char)) (ip : Bool) (f : FsFile) (c : Counters) :
    (is_pdf f = false →
      analyzeFile nq (some re) mb (some l) ip f c =
        textScan nq re mb f (computeMatchedName f.fileName nq) c) ∧
    (is_pdf f = true → String.toList "pdf" ∈ l →
      analyzeFile nq (some re) mb (some l) false f c =
        (some_if_name_only f nq (computeMatchedName f.fileName nq),
          { c with skipped_non_text := c.skipped_non_text + 1 })) := by
  constructor
  · intro hpdf
    exact analyzeFile_text_branch nq re mb (some l) ip f c hpdf rfl
  · intro hpdf _
    unfold analyzeFile
    simp [hpdf]

/-- C4 witness: the two parts evaluated on a concrete `.bin` file (not in
the recognized-text table) and a concrete PDF with allow-list `["pdf"]`. -/
theorem claim4_witness :
    (analyzeFile none (some noMatchRe) 10
        (some [String.toList "pdf", String.toList "bin"]) true binExtFile
        zeroCounters =
      textScan none noMatchRe 10 binExtFile
        (computeMatchedName binExtFile.fileName none) zeroCounters) ∧
    (analyzeFile none (some noMatchRe) 10 (some [String.toList "pdf"]) false
        corruptPdfFile zeroCounters =
      (some_if_name_only corruptPdfFile none
          (computeMatchedName corruptPdfFile.fileName none),
        { zeroCounters with
            skipped_non_text := zeroCounters.skipped_non_text + 1 })) :=
  ⟨(claim4_allow_list none noMatchRe 10
      [String.toList "pdf", String.toList "bin"] true binExtFile
      zeroCounters).1 (by decide),
   (claim4_allow_list none noMatchRe 10 [String.toList "pdf"] false
      corruptPdfFile zeroCounters).2 (by decide) (by decide)⟩

/-- C5: for every text-eligible file whose length exceeds the byte cap the
file is classified too-large with no content bytes consumed (the outcome is
an explicit value not depending on the content, and is invariant under
replacing the content by any other over-cap content) and contributes no
content match, while a file whose length is exactly the cap is read in
full: the whole content is searched and snippeted. -/
theorem claim5_byte_cap (nq : Option (List Char)) (re : CRegex) (mb : Nat)
    (ae : Option (List (List Char))) (ip : Bool) (f : FsFile) (c : Counters)
    (hpdf : is_pdf f = false) (helig : textEligible ae f = true) :
    (f.content.length > mb → f.metaOk = true →
      analyzeFile nq (some re) mb ae ip f c =
        (some_if_name_only f nq (computeMatchedName f.fileName nq),
          { c with skipped_too_large := c.skipped_too_large + 1 })) ∧
    (f.content.length > mb → f.metaOk = true → ∀ bs : List Nat,
      bs.length > mb →
      analyzeFile nq (some re) mb ae ip { f with content := bs } c =
        analyzeFile nq (some re) mb ae ip f c) ∧
    (f.content.length = mb → f.metaOk = true → f.openOk = true →
      f.readOk = true → validUtf8 f.content = true →
      ∀ ms me, re.find f.content = some (ms, me) →
        analyzeFile nq (some re) mb ae ip f c =
          (finalResult f nq true (computeMatchedName f.fileName nq) true
            (some (snippet_around_match f.content ms me 40 120)),
            { c with scanned_text := c.scanned_text + 1 })) := by
  have hA : ∀ g : FsFile, is_pdf g = false → textEligible ae g = true →
      g.metaOk = true → g.content.length > mb →
      analyzeFile nq (some re) mb ae ip g c =
        (some_if_name_only g nq (computeMatchedName g.fileName nq),
          { c with skipped_too_large := c.skipped_too_large + 1 }) := by
    intro g hg he hm hlen
    rw [analyzeFile_text_branch nq re mb ae ip g c hg he]
    unfold textScan
    simp [hm, hlen]
  refine ⟨fun hlen hm => hA f hpdf helig hm hlen, ?_, ?_⟩
  · intro hlen hm bs hbs
    rw [hA { f with content := bs } hpdf helig hm hbs, hA f hpdf helig hm hlen]
    rfl
  · intro hlen hm ho hr hv ms me hf
    rw [analyzeFile_text_branch nq re mb ae ip f c hpdf helig]
    unfold textScan
    have hngt : ¬ f.content.length > mb := by omega
    have htake : f.content.take mb = f.content :=
      List.take_of_length_le (le_of_eq hlen)
    simp [hm, hngt, ho, hr, htake, hv, hf]

/-- C5 witness: the three parts evaluated on concrete files of 11 and 10
bytes against a cap of 10. -/
theorem claim5_witness :
    (analyzeFile none (some noMatchRe) 10 none false oversizeFile
        zeroCounters =
      (some_if_name_only oversizeFile none
          (computeMatchedName oversizeFile.fileName none),
        { zeroCounters with
            skipped_too_large := zeroCounters.skipped_too_large + 1 })) ∧
    (analyzeFile none (some noMatchRe) 10 none false
        { oversizeFile with content := List.replicate 12 105 } zeroCounters =
      analyzeFile none (some noMatchRe) 10 none false oversizeFile
        zeroCounters) ∧
    (analyzeFile none (some alwaysMatchRe) 10 none false capSizeFile
        zeroCounters =
      (finalResult capSizeFile none true
          (computeMatchedName capSizeFile.fileName none) true
          (some (snippet_around_match capSizeFile.content 0 1 40 120)),
        { zeroCounters with
            scanned_text := zeroCounters.scanned_text + 1 })) :=
  ⟨(claim5_byte_cap none noMatchRe 10 none false oversizeFile zeroCounters
      (by decide) (by decide)).1 (by decide) (by decide),
   (claim5_byte_cap none noMatchRe 10 none false oversizeFile zeroCounters
      (by decide) (by decide)).2.1 (by decide) (by decide)
      (List.replicate 12 105) (by decide),
   (claim5_byte_cap none alwaysMatchRe 10 none false capSizeFile zeroCounters
      (by decide) (by decide)).2.2 (by decide) (by decide) (by decide)
      (by decide) (by decide) 0 1 rfl⟩

/-- C6: snippet extraction is a pure, deterministic function of the text
and span (it is a function in the model); the boundary clamp always lands
on a UTF-8 character boundary (a multi-byte character is never split), the
snippet contains no newline byte, and the snippet is at most 120 characters
long, counted in characters. -/
theorem claim6_snippet :
    (∀ (s : List Nat) (i : Nat),
      isCharBoundary s (clamp_to_char_boundary s i) = true) ∧
    (∀ (s : List Nat) (ms me : Nat),
      charCount (snippet_around_match s ms me 40 120) ≤ 120 ∧
      (snippet_around_match s ms me 40 120).all (fun b => b != 10) = true) :=
  ⟨isCharBoundary_clamp,
   fun s ms me =>
    ⟨snippet_charCount s ms me 40 120,
     List.all_eq_true.2 fun b hb => by
       simpa using snippet_no_newline s ms me 40 120 b hb⟩⟩

/-- C7: for every run whose candidate files have distinct paths, the final
ResultSet is sorted ascending by the lexicographic path order and contains
no two entries with the same path. -/
theorem claim7_sorted_nodup (nq : Option (List Char)) (cre : Option CRegex)
    (mb : Nat) (ae : Option (List (List Char))) (ip : Bool)
    (limit : Option Nat) (files : List FsFile)
    (hnd : (files.map FsFile.path).Nodup) :
    List.Sorted pathLe (runSearch nq cre mb ae ip limit files).2 ∧
    ((runSearch nq cre mb ae ip limit files).2.map MatchResult.path).Nodup := by
  have hsorted : List.Pairwise pathLe
      (List.insertionSort pathLe (collectResults nq cre mb ae ip files).1) :=
    List.sorted_insertionSort pathLe _
  have hsub : List.Sublist
      (((collectResults nq cre mb ae ip files).1).map MatchResult.path)
      (files.map FsFile.path) := by
    have h := collect_paths_sublist nq cre mb ae ip files ([], zeroCounters)
    simpa [collectResults] using h
  have hnodup0 :
      (((collectResults nq cre mb ae ip files).1).map MatchResult.path).Nodup :=
    hnd.sublist hsub
  have hperm :=
    List.perm_insertionSort pathLe (collectResults nq cre mb ae ip files).1
  have hnodup : ((List.insertionSort pathLe
      (collectResults nq cre mb ae ip files).1).map MatchResult.path).Nodup :=
    ((hperm.map MatchResult.path).symm).nodup hnodup0
  constructor
  · simp only [runSearch]
    cases limit with
    | none => exact hsorted
    | some l =>
      by_cases hlt : (List.insertionSort pathLe
          (collectResults nq cre mb ae ip files).1).length > l
      · simp only [hlt, if_true]
        exact hsorted.sublist (List.take_sublist l _)
      · simp only [hlt, if_false]
        exact hsorted
  · simp only [runSearch]
    cases limit with
    | none => exact hnodup
    | some l =>
      by_cases hlt : (List.insertionSort pathLe
          (collectResults nq cre mb ae ip files).1).length > l
      · simp only [hlt, if_true]
        rw [List.map_take]
        exact hnodup.sublist (List.take_sublist l _)
      · simp only [hlt, if_false]
        exact hnodup

/-- C7 witness: a concrete run over two distinct name-matching files. -/
theorem claim7_witness :
    ([fileB, fileA].map FsFile.path).Nodup ∧
    (List.Sorted pathLe
        (runSearch (some (String.toList "a")) none 10 none false none
          [fileB, fileA]).2 ∧
      ((runSearch (some (String.toList "a")) none 10 none false none
          [fileB, fileA]).2.map MatchResult.path).Nodup) :=
  ⟨by decide,
   claim7_sorted_nodup (some (String.toList "a")) none 10 none false none
     [fileB, fileA] (by decide)⟩

/-- C8: matches_printed equals min(matches_total, limit) when a result
limit is set and equals matches_total otherwise, and matches_total is the
pre-truncation count of collected results. -/
theorem claim8_limit (nq : Option (List Char)) (cre : Option CRegex)
    (mb : Nat) (ae : Option (List (List Char))) (ip : Bool)
    (limit : Option Nat) (files : List FsFile) :
    (runSearch nq cre mb ae ip limit files).1.matches_printed =
      (match limit with
        | some l => min (runSearch nq cre mb ae ip limit files).1.matches_total l
        | none => (runSearch nq cre mb ae ip limit files).1.matches_total) ∧
    (runSearch nq cre mb ae ip limit files).1.matches_total =
      (collectResults nq cre mb ae ip files).1.length := by
  cases limit with
  | none =>
    constructor
    · simp [runSearch]
    · simp [runSearch,
        (List.perm_insertionSort pathLe
          (collectResults nq cre mb ae ip files).1).length_eq]
  | some l =>
    constructor
    · simp only [runSearch]
      by_cases hlt : (List.insertionSort pathLe
          (collectResults nq cre mb ae ip files).1).length > l
      · simp only [hlt, if_true, List.length_take]
        omega
      · simp only [hlt, if_false]
        omega
    · simp [runSearch,
        (List.perm_insertionSort pathLe
          (collectResults nq cre mb ae ip files).1).length_eq]

/-- C9: matched_name is case-insensitive substring containment of the name
query in the filename — true exactly when a query was supplied and the
lowercased filename contains the lowercased query (witnessed by a
decomposition of the filename), false whenever no name query was supplied;
in particular `Report.TXT` matches the query `report`. -/
theorem claim9_name_match :
    (∀ (fileName q : List Char),
      computeMatchedName fileName (some q) = true ↔
        ∃ pre post, toLowerStr fileName = pre ++ toLowerStr q ++ post) ∧
    (∀ fileName : List Char, computeMatchedName fileName none = false) ∧
    computeMatchedName (String.toList "Report.TXT")
      (some (String.toList "report")) = true := by
  refine ⟨fun n q => ?_, fun n => rfl, by decide⟩
  exact containsSub_iff (toLowerStr n) (toLowerStr q)

/-- C9 witness: the containment decomposition extracted for the concrete
`Report.TXT` / `report` pair. -/
theorem claim9_witness :
    ∃ pre post, toLowerStr (String.toList "Report.TXT") =
      pre ++ toLowerStr (String.toList "report") ++ post :=
  (claim9_name_match.1 (String.toList "Report.TXT")
    (String.toList "report")).1 (by decide)

set_option maxRecDepth 8000 in
/-- C10: when the clamped window after newline replacement exceeds 120
characters, the snippet keeps exactly the first 120 characters of the
window; consequently, for a 130-byte match with the code's radius 40 and
cap 120, the matched text is not contained in the returned snippet. -/
theorem claim10_truncation :
    (∀ (s : List Nat) (ms me : Nat),
      120 < charCount (snippetWindow s ms me 40) →
      snippet_around_match s ms me 40 120 =
        takeChars 120 (snippetWindow s ms me 40)) ∧
    containsSub
      (snippet_around_match (List.replicate 130 97) 0 130 40 120)
      (List.replicate 130 97) = false := by
  constructor
  · intro s ms me h
    simp only [snippet_around_match]
    rw [if_pos h]
  · decide

set_option maxRecDepth 8000 in
/-- C10 witness: the truncation equation evaluated at the concrete
130-byte input. -/
theorem claim10_witness :
    snippet_around_match (List.replicate 130 97) 0 130 40 120 =
      takeChars 120 (snippetWindow (List.replicate 130 97) 0 130 40) :=
  claim10_truncation.1 (List.replicate 130 97) 0 130 (by decide)

end RustFileFinder
